import Mathlib

/-!
Shallow embedding of the `llog` logging package (`src/llog.go`) and proofs
about the claims of its specification.

Modelling conventions:
 * Go `int` (the `Level` type) is embedded as `Int`.
 * Go `interface{}` attribute values are embedded as the inductive `Value`;
   `sprint` is `fmt.Sprint`'s default textual representation for them.
 * Go maps (`KV`) are embedded as association lists with unique keys kept in
   insertion order; only their lookup function is observable (a Go map has no
   intrinsic order), and `kvTo` sorts them before any order is exposed.
 * An `io.Writer` is embedded as `Sink`: a write log plus an oracle saying
   which write calls succeed; a failed write returns the sink's error text.
 * `time.Now().String()` is nondeterministic, so the formatter takes the
   rendered timestamp as an explicit `now` argument.
-/

namespace LLog

/-- Go `type Level int`. -/
abbrev Level := Int

def DebugLevel : Level := 0
def InfoLevel : Level := 1
def WarnLevel : Level := 2
def ErrorLevel : Level := 3
def FatalLevel : Level := 4

/-- `Level.String` from the source: the five names, else "unknown level". -/
def levelString (l : Level) : String :=
  if l = DebugLevel then "DEBUG"
  else if l = InfoLevel then "INFO"
  else if l = WarnLevel then "WARN"
  else if l = ErrorLevel then "ERROR"
  else if l = FatalLevel then "FATAL"
  else "unknown level"

/-- Embedding of the Go `interface{}` values stored in a `KV`. -/
inductive Value where
  | str (s : String)
  | int (n : Int)
  | bool (b : Bool)
deriving DecidableEq

/-- `fmt.Sprint`'s default textual representation of a `Value`. -/
def sprint : Value → String
  | .str s => s
  | .int n => toString n
  | .bool true => "true"
  | .bool false => "false"

/-- Go `type KV map[string]interface{}`, as an association list with unique
keys (maintained by `mapInsert`, the embedding of `m[k] = v`). -/
abbrev KV := List (String × Value)

/-- `m[k] = v` on a Go map: overwrite in place if the key exists, else add. -/
def mapInsert (m : KV) (k : String) (v : Value) : KV :=
  if m.any (fun p => p.1 == k) then
    m.map (fun p => if p.1 = k then (k, v) else p)
  else m ++ [(k, v)]

/-- `m[k]` lookup on the embedded map. -/
def kvGet : KV → String → Option Value
  | [], _ => none
  | p :: rest, k => if p.1 = k then some p.2 else kvGet rest k

/-- Build a Go map literal / copy loop: insert the pairs left to right. -/
def kvOfList (l : List (String × Value)) : KV :=
  l.foldl (fun a p => mapInsert a p.1 p.2) []

/-- `KV.Copy` from the source: a fresh map with the same pairs. -/
def KV.Copy (kv : KV) : KV := kvOfList kv

/-- `Merge` from the source: union of the given KVs, rightmost wins. -/
def Merge (kvs : List KV) : KV :=
  kvs.foldl (fun acc m => m.foldl (fun a p => mapInsert a p.1 p.2) acc) []

/-- `KV.Set` from the source: copy, then set one key. -/
def KV.Set (kv : KV) (k : String) (v : Value) : KV :=
  mapInsert (KV.Copy kv) k v

/-- The key order used by `kvL.Less` (`l[i].K < l[j].K`), as a ≤ relation. -/
def kvLe (a b : String × Value) : Prop := a.1 ≤ b.1

instance : DecidableRel kvLe := fun a b => inferInstanceAs (Decidable (a.1 ≤ b.1))

instance : IsTotal (String × Value) kvLe := ⟨fun a b => le_total a.1 b.1⟩

instance : IsTrans (String × Value) kvLe := ⟨fun _ _ _ h1 h2 => le_trans h1 h2⟩

/-- Strict key order: what `kvLe` becomes on lists with unique keys. -/
def kvLt (a b : String × Value) : Prop := a.1 < b.1

instance : IsAntisymm (String × Value) kvLt :=
  ⟨fun _ _ h h' => absurd (lt_trans h h') (lt_irrefl _)⟩

/-- `kvTo` from the source: list the map's pairs sorted by key
(`sort.Sort(kvl)`; any comparison sort — the keys are unique). -/
def kvTo (kv : KV) : List (String × Value) :=
  List.insertionSort kvLe kv

/-- `kvNormalize` from the source. -/
def kvNormalize (kvs : List KV) : List (String × Value) :=
  kvTo (Merge kvs)

/-! ### Value quoting (`strconv.QuoteToASCII` and the quote replacement) -/

/-- `strconv`'s lowercase hex digits: `lowerhex[n]` for a nibble `n`
(the source always indexes with a value below 16). -/
def lowerHexDigit (n : Nat) : Char :=
  match n with
  | 0 => '0' | 1 => '1' | 2 => '2' | 3 => '3' | 4 => '4'
  | 5 => '5' | 6 => '6' | 7 => '7' | 8 => '8' | 9 => '9'
  | 10 => 'a' | 11 => 'b' | 12 => 'c' | 13 => 'd' | 14 => 'e'
  | _ => 'f'

def hex2 (n : Nat) : List Char :=
  [lowerHexDigit (n / 16 % 16), lowerHexDigit (n % 16)]

def hex4 (n : Nat) : List Char :=
  [lowerHexDigit (n / 4096 % 16), lowerHexDigit (n / 256 % 16),
   lowerHexDigit (n / 16 % 16), lowerHexDigit (n % 16)]

def hex8 (n : Nat) : List Char :=
  hex4 (n / 65536) ++ hex4 (n % 65536)

/-- One rune of `strconv.QuoteToASCII` (`appendEscapedRune` with quote `"`
and `ASCIIonly`; a Lean `Char` is always a valid rune, so the
`utf8.RuneError` branches for invalid bytes cannot arise). -/
def quoteRuneToASCII (r : Char) : List Char :=
  if r = '"' ∨ r = '\\' then ['\\', r]
  else if 0x20 ≤ r.toNat ∧ r.toNat ≤ 0x7e then [r]
  else if r.toNat = 7 then ['\\', 'a']
  else if r.toNat = 8 then ['\\', 'b']
  else if r.toNat = 12 then ['\\', 'f']
  else if r.toNat = 10 then ['\\', 'n']
  else if r.toNat = 13 then ['\\', 'r']
  else if r.toNat = 9 then ['\\', 't']
  else if r.toNat = 11 then ['\\', 'v']
  else if r.toNat < 0x20 ∨ r.toNat = 0x7f then '\\' :: 'x' :: hex2 r.toNat
  else if r.toNat < 0x10000 then '\\' :: 'u' :: hex4 r.toNat
  else '\\' :: 'U' :: hex8 r.toNat

/-- `strconv.QuoteToASCII`: escape every rune, wrap in double quotes. -/
def quoteToASCII (s : String) : String :=
  ⟨'"' :: (s.data.flatMap quoteRuneToASCII ++ ['"'])⟩

/-- `strings.Replace(vstr, quote, apostrophe, -1)`: the pattern is a single
character, so the replacement is a per-character map. -/
def replaceQuotes (s : String) : String :=
  ⟨s.data.map (fun c => if c = '"' then '\'' else c)⟩

/-- How `printOut` renders one attribute value:
`strconv.QuoteToASCII(strings.Replace(fmt.Sprint(v), quote, apostrophe, -1))`. -/
def renderValue (v : Value) : String :=
  quoteToASCII (replaceQuotes (sprint v))

/-! ### Entries and the formatter (`entry.printOut`) -/

/-- The source's `entry` struct. `blockCh` (a channel or nil) is embedded as
the flag `hasBlockCh`; the channel dynamics live in the relay model below. -/
structure Entry where
  level : Level
  msg : String
  kv : List (String × Value)
  hasBlockCh : Bool
deriving DecidableEq

/-- The chunks `printOut` writes for one key/value pair:
space, key, equals, quoted value. -/
def pairChunks (p : String × Value) : List String :=
  [" ", p.1, "=", renderValue p.2]

/-- The exact sequence of byte chunks `printOut` passes to `writeHelper`,
in order: prefix, optional timestamp, level name, " -- " separator, message,
then (only when the kv list is nonempty) the " --" separator and the pairs,
then the newline. -/
def renderChunks (e : Entry) (displayTS : Bool) (now : String) : List String :=
  ["~ "]
  ++ (if displayTS then ["[", now, "] "] else [])
  ++ [levelString e.level, " -- ", e.msg]
  ++ (if e.kv.isEmpty then [] else " --" :: e.kv.flatMap pairChunks)
  ++ ["\n"]

/-- The characters of a chunk sequence, concatenated. -/
def chunksChars (l : List String) : List Char :=
  (l.map String.data).flatten

/-- The characters of the full formatted line for an entry. -/
def lineChars (e : Entry) (displayTS : Bool) (now : String) : List Char :=
  chunksChars (renderChunks e displayTS now)

/-- The full formatted line for an entry, as a string. -/
def renderLine (e : Entry) (displayTS : Bool) (now : String) : String :=
  ⟨lineChars e displayTS now⟩

/-! ### Sinks (`io.Writer`) and the write helpers -/

/-- An `io.Writer`: `ok n` says whether the n-th `Write` call on this writer
succeeds; `log` collects the chunks successfully written; a failed write
writes nothing and produces the error `errText`. -/
structure Sink where
  ok : Nat → Bool
  errText : String
  count : Nat
  log : List String

/-- One `Write` call on a sink. -/
def Sink.write (w : Sink) (b : String) : Sink × Option String :=
  if w.ok w.count then
    ({ w with count := w.count + 1, log := w.log ++ [b] }, none)
  else
    ({ w with count := w.count + 1 }, some w.errText)

/-- A sink all of whose writes succeed. -/
def Sink.allOk (w : Sink) : Prop := ∀ n, w.ok n = true

/-- `writeHelper` from the source: skip the write if a previous one failed,
otherwise write and keep the first error. -/
def writeHelper (b : String) (s : Sink × Option String) : Sink × Option String :=
  match s with
  | (w, some err) => (w, some err)
  | (w, none) => w.write b

/-- `entry.printOut`: the chunk sequence of `renderChunks`, each passed
through `writeHelper`, returning the final sink state and first error. -/
def printOut (e : Entry) (w : Sink) (displayTS : Bool) (now : String) :
    Sink × Option String :=
  (renderChunks e displayTS now).foldl (fun s b => writeHelper b s) (w, none)

/-! ### The relay worker (`init`'s goroutine body, per entry) -/

/-- The optional capability the worker may invoke on `Out` for a FATAL
entry: the `syncer` or `flusher` interface. -/
inductive FlushAction where
  | sync
  | flush
deriving DecidableEq

/-- Process-wide relay configuration: whether `Out == defaultOut` (the Go
comparison of the two writer variables), the timestamp flag, the rendered
current time, and which optional interfaces `Out` implements. -/
structure RelayCfg where
  outIsDefault : Bool
  displayTS : Bool
  now : String
  outHasSync : Bool
  outHasFlush : Bool

/-- The two writers the worker can touch: `Out` and `defaultOut` (Stdout).
When `cfg.outIsDefault` is true they are the same Go object and only `out`
is used. -/
structure RelayIO where
  out : Sink
  fb : Sink

/-- The synthetic fallback entry the worker builds when a write to `Out`
fails: level ERROR, fixed message, `kv: kvTo(KV{"err": err})`, nil block
channel. -/
def erreEntry (errText : String) : Entry :=
  { level := ErrorLevel
    msg := "Could not write to error Out"
    kv := kvTo (kvOfList [("err", Value.str errText)])
    hasBlockCh := false }

/-- Result of the worker's handling of one entry. -/
structure ProcResult where
  out : Sink
  fb : Sink
  flushed : List FlushAction
  signaled : Bool

/-- Steps 1–2 of the worker: write the entry to `Out`; on a write error,
when `Out != defaultOut`, write the synthetic error entry and then the
original entry to `defaultOut` (both best-effort, errors dropped). -/
def writeAndFallback (cfg : RelayCfg) (io_ : RelayIO) (e : Entry) : RelayIO :=
  match printOut e io_.out cfg.displayTS cfg.now with
  | (out1, none) => { out := out1, fb := io_.fb }
  | (out1, some errText) =>
    if cfg.outIsDefault then { out := out1, fb := io_.fb }
    else
      let fbA := (printOut (erreEntry errText) io_.fb cfg.displayTS cfg.now).1
      let fbB := (printOut e fbA cfg.displayTS cfg.now).1
      { out := out1, fb := fbB }

/-- Step 3 of the worker: for a FATAL entry, cast `Out` to `syncer` first,
else to `flusher`, and invoke the one found (if any). -/
def fatalFlush (cfg : RelayCfg) (e : Entry) : List FlushAction :=
  if e.level = FatalLevel then
    if cfg.outHasSync then [FlushAction.sync]
    else if cfg.outHasFlush then [FlushAction.flush]
    else []
  else []

/-- The worker's whole per-entry body: write (with fallback), flush for
FATAL, then close `blockCh` if the entry carries one. -/
def processEntry (cfg : RelayCfg) (io_ : RelayIO) (e : Entry) : ProcResult :=
  let io1 := writeAndFallback cfg io_ e
  { out := io1.out
    fb := io1.fb
    flushed := fatalFlush cfg e
    signaled := e.hasBlockCh }

/-! ### The level gate and the emit path -/

/-- `logEntry` from the source: gate on `l >= GetLevel()`, then construct
the entry (with `kvNormalize`) and submit it; `none` means nothing was
constructed or submitted. -/
def logEntry (curr : Level) (l : Level) (msg : String) (kvs : List KV)
    (hasBlock : Bool) : Option Entry :=
  if l ≥ curr then
    some { level := l, msg := msg, kv := kvNormalize kvs, hasBlockCh := hasBlock }
  else none

/-- A non-fatal emit followed by the relay's handling of the entry (if one
was submitted), against the given sinks. -/
def emitted (curr : Level) (l : Level) (msg : String) (kvs : List KV)
    (cfg : RelayCfg) (io_ : RelayIO) : RelayIO :=
  match logEntry curr l msg kvs false with
  | none => io_
  | some e => let r := processEntry cfg io_ e; { out := r.out, fb := r.fb }

/-! ### `SetLevelFromString` -/

/-- Per-character model of `strings.ToUpper` restricted to what the level
comparison can observe: ASCII letters are uppercased, and the only two
Unicode runes whose simple uppercase mapping lands in ASCII
(U+0131 → I, U+017F → S) are mapped; every other rune's Go uppercase is
not an ASCII character, so it can never make the string equal to one of
the five ASCII level names, and mapping it to itself preserves every
comparison the source performs. -/
def goToUpperChar (c : Char) : Char :=
  if c.toNat = 0x131 then 'I'
  else if c.toNat = 0x17f then 'S'
  else if 0x61 ≤ c.toNat ∧ c.toNat ≤ 0x7a then Char.ofNat (c.toNat - 0x20)
  else c

/-- `strings.ToUpper` (see `goToUpperChar` for the modelled rune range). -/
def goToUpper (s : String) : String :=
  ⟨s.data.map goToUpperChar⟩

/-- The error value built by `fmt.Errorf("unknown log level %q", ls)`:
the format string together with its argument. -/
structure FmtError where
  format : String
  arg : String
deriving DecidableEq

/-- `SetLevelFromString` from the source: switch on `strings.ToUpper(ls)`. -/
def SetLevelFromString (ls : String) : Except FmtError Level :=
  if goToUpper ls = "DEBUG" then .ok DebugLevel
  else if goToUpper ls = "INFO" then .ok InfoLevel
  else if goToUpper ls = "WARN" then .ok WarnLevel
  else if goToUpper ls = "ERROR" then .ok ErrorLevel
  else if goToUpper ls = "FATAL" then .ok FatalLevel
  else .error { format := "unknown log level %q", arg := ls }

/-- `SetLevelFromString` acting on the current threshold: on success the
threshold becomes the parsed level, on failure it is left unchanged and the
error is returned. -/
def runSetLevelFromString (ls : String) (curr : Level) : Option FmtError × Level :=
  match SetLevelFromString ls with
  | .ok l => (none, l)
  | .error e => (some e, curr)

/-- The five level name strings. -/
def levelNames : List String := ["DEBUG", "INFO", "WARN", "ERROR", "FATAL"]

/-! ### Temporal model: a `Fatal` caller and the relay worker

`Fatal` makes a block channel, calls `logEntry` (which sends on the
unbuffered `entryCh` only if the gate passes), receives on the block
channel, and then calls `os.Exit(1)`. The worker loops: receive, write
(with fallback), flush for FATAL, close the block channel. The unbuffered
channel send is a rendezvous: it completes exactly when the worker
receives. -/

inductive CallerPC where
  | gate   -- about to evaluate `l >= GetLevel()` inside logEntry
  | send   -- blocked sending on entryCh
  | wait   -- blocked receiving on blockCh
  | done   -- has called os.Exit(1)
deriving DecidableEq

inductive WorkerPC where
  | recv       -- blocked receiving on entryCh
  | work       -- running printOut and the fallback handling
  | flushStep  -- running the FATAL sync/flush probe
  | signal     -- about to close blockCh (when present)
deriving DecidableEq

/-- Global state of the two threads, the channels, and the sinks. -/
structure Sys where
  t : Level              -- the level gate's current threshold
  cfg : RelayCfg
  caller : CallerPC
  worker : WorkerPC
  cur : Option Entry     -- entry held by the worker (received from entryCh)
  blockClosed : Bool     -- blockCh has been closed
  io_ : RelayIO
  flushed : List FlushAction
  writeDone : Bool       -- step 1–2 (write + fallback) completed for cur
  flushDone : Bool       -- step 3 (flush probe) completed for cur
  exitCode : Option Int  -- some c once os.Exit(c) has run

/-- The entry `Fatal msg kvs` submits. -/
def fatalEntry (msg : String) (kvs : List KV) : Entry :=
  { level := FatalLevel, msg := msg, kv := kvNormalize kvs, hasBlockCh := true }

/-- Initial state: caller entering `Fatal`, worker waiting on `entryCh`. -/
def Sys.start (t : Level) (cfg : RelayCfg) (io_ : RelayIO) : Sys :=
  { t := t, cfg := cfg, caller := .gate, worker := .recv, cur := none
    blockClosed := false, io_ := io_, flushed := [], writeDone := false
    flushDone := false, exitCode := none }

/-- One interleaving step of the caller/worker system for `Fatal msg kvs`. -/
inductive Step (msg : String) (kvs : List KV) : Sys → Sys → Prop where
  | gatePass (s : Sys) :
      s.caller = .gate → FatalLevel ≥ s.t →
      Step msg kvs s { s with caller := .send }
  | gateSkip (s : Sys) :
      s.caller = .gate → ¬ FatalLevel ≥ s.t →
      Step msg kvs s { s with caller := .wait }
  | rendezvous (s : Sys) :
      s.caller = .send → s.worker = .recv →
      Step msg kvs s
        { s with caller := .wait, worker := .work,
                 cur := some (fatalEntry msg kvs) }
  | doWork (s : Sys) (e : Entry) :
      s.worker = .work → s.cur = some e →
      Step msg kvs s
        { s with worker := .flushStep,
                 io_ := writeAndFallback s.cfg s.io_ e,
                 writeDone := true }
  | doFlush (s : Sys) (e : Entry) :
      s.worker = .flushStep → s.cur = some e →
      Step msg kvs s
        { s with worker := .signal,
                 flushed := s.flushed ++ fatalFlush s.cfg e,
                 flushDone := true }
  | doSignal (s : Sys) (e : Entry) :
      s.worker = .signal → s.cur = some e →
      Step msg kvs s
        { s with worker := .recv, cur := none,
                 blockClosed := s.blockClosed || e.hasBlockCh }
  | exit (s : Sys) :
      s.caller = .wait → s.blockClosed = true →
      Step msg kvs s { s with caller := .done, exitCode := some 1 }

/-- Reachability from a start state. -/
inductive Reach (msg : String) (kvs : List KV) (s0 : Sys) : Sys → Prop where
  | refl : Reach msg kvs s0 s0
  | tail {s s' : Sys} : Reach msg kvs s0 s → Step msg kvs s s' →
      Reach msg kvs s0 s'

/-! ### Derived notions used by the claim statements -/

/-- A printable ASCII character (0x20–0x7e). -/
def printableASCII (c : Char) : Prop := 0x20 ≤ c.toNat ∧ c.toNat ≤ 0x7e

/-- A well-formed embedded Go map: its keys are unique. Every `KV` the
source ever builds satisfies this (Go map keys are unique). -/
def KVWF (m : KV) : Prop := (m.map Prod.fst).Nodup

instance (m : KV) : Decidable (KVWF m) := by
  unfold KVWF; infer_instance

/-- Number of occurrences of the pattern `pat` in a character list
(positions at which `pat` is a prefix of the remaining list). -/
def countOcc (pat : List Char) : List Char → Nat
  | [] => 0
  | c :: rest => (if pat.isPrefixOf (c :: rest) then 1 else 0) + countOcc pat rest

/-- Rendered text of a `{ " " key "=" value }` pair list, value already
rendered; used to state line grammars. -/
def specPairsText : List (String × String) → String
  | [] => ""
  | p :: rest => " " ++ p.1 ++ "=" ++ p.2 ++ specPairsText rest

/-- The line grammar exactly as the claim states it:
`"~ " [ "[" ts "] " ] LEVEL-NAME " --" { " " key "=" quoted-value } "\n"` —
note it has no message field. -/
def claimedGrammarLine (tsOpt : Option String) (lvlName : String)
    (pairs : List (String × String)) : String :=
  "~ " ++ (match tsOpt with | some ts => "[" ++ ts ++ "] " | none => "")
      ++ lvlName ++ " --" ++ specPairsText pairs ++ "\n"

/-- Claim C1's assertion about one formatted line: it matches the claimed
grammar, and the `" --"` marker occurs exactly once in the line. -/
def claimC1 (e : Entry) (dts : Bool) (now : String) : Prop :=
  (∃ tsOpt lvlName pairs, lvlName ∈ levelNames ∧
      renderLine e dts now = claimedGrammarLine tsOpt lvlName pairs) ∧
  countOcc (" --").data (lineChars e dts now) = 1

/-- The attribute-pair section as actually emitted:
`{ " " key "=" renderValue value }`. -/
def pairsString : List (String × Value) → String
  | [] => ""
  | p :: rest => " " ++ p.1 ++ "=" ++ renderValue p.2 ++ pairsString rest

/-- The corrected line grammar, read off the source:
`"~ " [ "[" ts "] " ] LEVEL-NAME " -- " message [ " --" pairs ] "\n"`,
with the second `" --"` marker present exactly when the pair list is
nonempty. -/
def amendedLine (e : Entry) (dts : Bool) (now : String) : String :=
  "~ " ++ (if dts then "[" ++ now ++ "] " else "")
      ++ levelString e.level ++ " -- " ++ e.msg
      ++ (if e.kv.isEmpty then "" else " --" ++ pairsString e.kv) ++ "\n"

/-- Value for key `k` in the rightmost pair of the list that carries `k`
(rightmost-wins lookup within one insertion sequence). -/
def lookupLast : List (String × Value) → String → Option Value
  | [], _ => none
  | p :: rest, k =>
    match lookupLast rest k with
    | some v => some v
    | none => if p.1 = k then some p.2 else none

/-- Value for key `k` from the rightmost KV in the list that contains `k`
(what the claim says `Merge` computes). -/
def rightmostLookup : List KV → String → Option Value
  | [], _ => none
  | m :: rest, k =>
    match rightmostLookup rest k with
    | some v => some v
    | none => kvGet m k

/-- The flush preference order exactly as claim C4 states it: flush first,
then sync. -/
def claimedFlushOrder (cfg : RelayCfg) : List FlushAction :=
  if cfg.outHasFlush then [FlushAction.flush]
  else if cfg.outHasSync then [FlushAction.sync]
  else []

/-! ### Concrete fixtures used by witnesses and counterexamples -/

/-- A sink all of whose writes succeed. -/
def okSink : Sink := { ok := fun _ => true, errText := "", count := 0, log := [] }

/-- A sink all of whose writes fail with error text "boom". -/
def badSink : Sink := { ok := fun _ => false, errText := "boom", count := 0, log := [] }

def witCfg : RelayCfg :=
  { outIsDefault := true, displayTS := false, now := "", outHasSync := false,
    outHasFlush := false }

def witIO : RelayIO := { out := okSink, fb := okSink }

/-- Sinks with a failing `Out` and a working fallback. -/
def failIO : RelayIO := { out := badSink, fb := okSink }

/-- Configuration with `Out != defaultOut` and no optional capabilities. -/
def sepCfg : RelayCfg :=
  { outIsDefault := false, displayTS := false, now := "", outHasSync := false,
    outHasFlush := false }

/-- Configuration whose `Out` implements both `syncer` and `flusher`. -/
def bothCfg : RelayCfg :=
  { outIsDefault := true, displayTS := false, now := "", outHasSync := true,
    outHasFlush := true }

/-- Safety invariant of the `Fatal`/worker system: the worker's program
counter witnesses which per-entry steps have completed, the completion
signal fires only after write+fallback and flush are done, and the process
exits only after the signal, with status 1. -/
def SysInv (s : Sys) : Prop :=
  (s.worker = .flushStep → s.writeDone = true) ∧
  (s.worker = .signal → s.writeDone = true ∧ s.flushDone = true) ∧
  (s.blockClosed = true → s.writeDone = true ∧ s.flushDone = true) ∧
  (s.exitCode ≠ none → s.blockClosed = true ∧ s.exitCode = some 1)

/-- Invariant of a `Fatal` call suppressed by the gate (threshold above
FATAL): nothing is ever constructed, submitted, written or exited. -/
def QuietInv (t : Level) (io0 : RelayIO) (s : Sys) : Prop :=
  s.t = t ∧ (s.caller = .gate ∨ s.caller = .wait) ∧ s.worker = .recv ∧
  s.cur = none ∧ s.blockClosed = false ∧ s.io_ = io0 ∧ s.flushed = [] ∧
  s.writeDone = false ∧ s.flushDone = false ∧ s.exitCode = none

/-- The final state of the concrete `Fatal "boom"` run used as a witness. -/
def witFinal : Sys :=
  { t := 0, cfg := witCfg, caller := .done, worker := .recv, cur := none
    blockClosed := true
    io_ := writeAndFallback witCfg witIO (fatalEntry "boom" [])
    flushed := fatalFlush witCfg (fatalEntry "boom" [])
    writeDone := true, flushDone := true, exitCode := some 1 }

instance (c : Char) : Decidable (printableASCII c) := by
  unfold printableASCII; infer_instance

/-! ## Helper lemmas -/

theorem foldl_writeHelper_allOk (chunks : List String) (w : Sink) (h : w.allOk) :
    chunks.foldl (fun s b => writeHelper b s) (w, none) =
      ({ w with count := w.count + chunks.length, log := w.log ++ chunks }, none) := by
  induction chunks generalizing w with
  | nil => simp
  | cons c rest ih =>
    have hw : writeHelper c (w, none) =
        ({ w with count := w.count + 1, log := w.log ++ [c] }, none) := by
      simp [writeHelper, Sink.write, h w.count]
    have h' : Sink.allOk { w with count := w.count + 1, log := w.log ++ [c] } :=
      fun n => h n
    simp only [List.foldl_cons, hw, ih _ h']
    simp [Nat.add_assoc, Nat.add_comm 1 rest.length]

theorem printOut_allOk (e : Entry) (w : Sink) (dts : Bool) (now : String)
    (h : w.allOk) :
    printOut e w dts now =
      ({ w with count := w.count + (renderChunks e dts now).length,
                log := w.log ++ renderChunks e dts now }, none) :=
  foldl_writeHelper_allOk _ _ h

theorem lowerHexDigit_printable (n : Nat) : printableASCII (lowerHexDigit n) := by
  unfold lowerHexDigit
  split <;> decide

theorem mem_hex2_printable {c : Char} {n : Nat} (h : c ∈ hex2 n) :
    printableASCII c := by
  simp only [hex2, List.mem_cons, List.mem_singleton, List.not_mem_nil,
    or_false] at h
  rcases h with rfl | rfl <;> exact lowerHexDigit_printable _

theorem mem_hex4_printable {c : Char} {n : Nat} (h : c ∈ hex4 n) :
    printableASCII c := by
  simp only [hex4, List.mem_cons, List.mem_singleton, List.not_mem_nil,
    or_false] at h
  rcases h with rfl | rfl | rfl | rfl <;> exact lowerHexDigit_printable _

theorem mem_hex8_printable {c : Char} {n : Nat} (h : c ∈ hex8 n) :
    printableASCII c := by
  simp only [hex8, List.mem_append] at h
  rcases h with h | h <;> exact mem_hex4_printable h

set_option maxHeartbeats 1000000 in
theorem quoteRuneToASCII_printable {c r : Char} (h : c ∈ quoteRuneToASCII r) :
    printableASCII c := by
  unfold quoteRuneToASCII at h
  split_ifs at h with h1 h2 h3 h4 h5 h6 h7 h8 h9 h10 h11 <;>
    simp only [List.mem_cons, List.mem_append, List.mem_singleton,
      List.not_mem_nil, or_false] at h
  · rcases h with rfl | rfl
    · decide
    · rcases h1 with rfl | rfl <;> decide
  · rcases h with rfl
    exact h2
  · rcases h with rfl | rfl <;> decide
  · rcases h with rfl | rfl <;> decide
  · rcases h with rfl | rfl <;> decide
  · rcases h with rfl | rfl <;> decide
  · rcases h with rfl | rfl <;> decide
  · rcases h with rfl | rfl <;> decide
  · rcases h with rfl | rfl <;> decide
  · rcases h with rfl | rfl | hm
    · decide
    · decide
    · exact mem_hex2_printable hm
  · rcases h with rfl | rfl | hm
    · decide
    · decide
    · exact mem_hex4_printable hm
  · rcases h with rfl | rfl | hm
    · decide
    · decide
    · exact mem_hex8_printable hm

theorem quoteToASCII_printable {c : Char} (s : String)
    (h : c ∈ (quoteToASCII s).data) : printableASCII c := by
  simp only [quoteToASCII, List.mem_cons, List.mem_append, List.mem_singleton,
    List.not_mem_nil, or_false, List.mem_flatMap] at h
  rcases h with rfl | ⟨r, _, hr⟩ | rfl
  · decide
  · exact quoteRuneToASCII_printable hr
  · decide

theorem renderValue_printable {c : Char} (v : Value)
    (h : c ∈ (renderValue v).data) : printableASCII c :=
  quoteToASCII_printable _ h

theorem renderValue_count_nl (v : Value) :
    (renderValue v).data.count '\n' = 0 := by
  rw [List.count_eq_zero]
  intro h
  have := renderValue_printable v h
  simp [printableASCII] at this

theorem levelString_count_nl (l : Level) :
    (levelString l).data.count '\n' = 0 := by
  unfold levelString
  split_ifs <;> decide

theorem pairs_data (kv : List (String × Value)) :
    ((kv.flatMap pairChunks).map String.data).flatten = (pairsString kv).data := by
  induction kv with
  | nil => rfl
  | cons p rest ih =>
    simp only [List.flatMap_cons, pairChunks, pairsString, List.map_append,
      List.flatten_append, String.data_append, ih]
    simp

theorem renderLine_eq_amendedLine (e : Entry) (dts : Bool) (now : String) :
    renderLine e dts now = amendedLine e dts now := by
  apply String.ext
  show lineChars e dts now = (amendedLine e dts now).data
  unfold lineChars chunksChars renderChunks amendedLine
  cases dts <;> cases hkv : e.kv <;>
    simp [String.data_append, ← pairs_data, hkv]

theorem count_nl_pairs (kv : List (String × Value))
    (hk : ∀ p ∈ kv, p.1.data.count '\n' = 0) :
    (pairsString kv).data.count '\n' = 0 := by
  induction kv with
  | nil => rfl
  | cons p rest ih =>
    simp only [pairsString, String.data_append, List.count_append]
    rw [hk p (List.mem_cons_self p rest), renderValue_count_nl,
      ih (fun q hq => hk q (List.mem_cons_of_mem p hq))]
    rfl

theorem count_nl_line (e : Entry) (now : String)
    (hm : e.msg.data.count '\n' = 0)
    (hk : ∀ p ∈ e.kv, p.1.data.count '\n' = 0) :
    (lineChars e false now).count '\n' = 1 := by
  have h : lineChars e false now = (amendedLine e false now).data :=
    congrArg String.data (renderLine_eq_amendedLine e false now)
  rw [h]
  unfold amendedLine
  simp only [if_neg Bool.false_ne_true, String.data_append, List.count_append, hm,
    levelString_count_nl]
  cases hkv : e.kv with
  | nil => simp
  | cons p rest =>
    rw [hkv] at hk
    simp [count_nl_pairs _ hk, ← hkv]
    rw [hkv]
    simp [count_nl_pairs _ hk]

/-! ### KV lemmas -/

theorem mapInsert_of_not_mem (m : KV) (k : String) (v : Value)
    (h : k ∉ m.map Prod.fst) : mapInsert m k v = m ++ [(k, v)] := by
  unfold mapInsert
  rw [if_neg]
  intro hc
  rcases List.any_eq_true.1 hc with ⟨p, hp, hpk⟩
  exact h (List.mem_map.2 ⟨p, hp, by simpa using hpk⟩)

theorem foldl_mapInsert_eq_append (l : List (String × Value)) (acc : KV)
    (h : ((acc ++ l).map Prod.fst).Nodup) :
    l.foldl (fun a p => mapInsert a p.1 p.2) acc = acc ++ l := by
  induction l generalizing acc with
  | nil => simp
  | cons p rest ih =>
    have hk : p.1 ∉ acc.map Prod.fst := by
      have h' := h
      rw [List.map_append] at h'
      rcases List.nodup_append.1 h' with ⟨-, -, hdisj⟩
      intro hmem
      exact hdisj hmem (by simp)
    rw [List.foldl_cons, mapInsert_of_not_mem _ _ _ hk]
    have := ih (acc ++ [(p.1, p.2)]) (by simpa using h)
    simpa using this

theorem kvOfList_eq_self (l : List (String × Value))
    (h : (l.map Prod.fst).Nodup) : kvOfList l = l := by
  have := foldl_mapInsert_eq_append l [] (by simpa using h)
  simpa [kvOfList] using this

theorem kvGet_map_replace_ne (m : KV) (k : String) (v : Value) (k' : String)
    (h : k' ≠ k) :
    kvGet (m.map (fun p => if p.1 = k then (k, v) else p)) k' = kvGet m k' := by
  induction m with
  | nil => rfl
  | cons p rest ih =>
    by_cases hpk : p.1 = k
    · simp only [List.map_cons, if_pos hpk, kvGet]
      rw [if_neg (fun hkk => h hkk.symm), if_neg (by rw [hpk]; exact fun hkk => h hkk.symm)]
      exact ih
    · simp only [List.map_cons, if_neg hpk, kvGet]
      by_cases hp' : p.1 = k'
      · rw [if_pos hp', if_pos hp']
      · rw [if_neg hp', if_neg hp']
        exact ih

theorem kvGet_map_replace_eq (m : KV) (k : String) (v : Value)
    (hmem : ∃ p ∈ m, p.1 = k) :
    kvGet (m.map (fun p => if p.1 = k then (k, v) else p)) k = some v := by
  induction m with
  | nil => simp at hmem
  | cons p rest ih =>
    by_cases hpk : p.1 = k
    · simp [List.map_cons, if_pos hpk, kvGet]
    · simp only [List.map_cons, if_neg hpk, kvGet]
      apply ih
      rcases hmem with ⟨q, hq, hqk⟩
      rcases List.mem_cons.1 hq with rfl | hq'
      · exact absurd hqk hpk
      · exact ⟨q, hq', hqk⟩

theorem kvGet_append (m₁ m₂ : KV) (k : String) :
    kvGet (m₁ ++ m₂) k =
      match kvGet m₁ k with
      | some v => some v
      | none => kvGet m₂ k := by
  induction m₁ with
  | nil => rfl
  | cons p rest ih =>
    by_cases hp : p.1 = k <;> simp [kvGet, hp, ih]

theorem kvGet_eq_none_of_not_any (m : KV) (k : String)
    (h : ¬ m.any (fun p => p.1 == k) = true) : kvGet m k = none := by
  induction m with
  | nil => rfl
  | cons p rest ih =>
    simp only [List.any_cons, Bool.or_eq_true, not_or] at h
    rw [kvGet, if_neg (by simpa using h.1)]
    exact ih h.2

theorem kvGet_mapInsert (m : KV) (k : String) (v : Value) (k' : String) :
    kvGet (mapInsert m k v) k' = if k' = k then some v else kvGet m k' := by
  unfold mapInsert
  by_cases hc : m.any (fun p => p.1 == k) = true
  · rw [if_pos hc]
    by_cases hk' : k' = k
    · subst hk'
      rw [if_pos rfl]
      apply kvGet_map_replace_eq
      rcases List.any_eq_true.1 hc with ⟨p, hp, hpk⟩
      exact ⟨p, hp, by simpa using hpk⟩
    · rw [if_neg hk']
      exact kvGet_map_replace_ne m k v k' hk'
  · rw [if_neg hc]
    rw [kvGet_append]
    by_cases hk' : k' = k
    · subst hk'
      rw [kvGet_eq_none_of_not_any m k' hc, if_pos rfl]
      simp [kvGet]
    · rw [if_neg hk']
      have hkk : ¬ k = k' := fun h => hk' h.symm
      cases hg : kvGet m k' <;> simp [kvGet, hkk, hg]

theorem kvGet_foldl_mapInsert (l : List (String × Value)) (acc : KV) (k : String) :
    kvGet (l.foldl (fun a p => mapInsert a p.1 p.2) acc) k =
      match lookupLast l k with
      | some v => some v
      | none => kvGet acc k := by
  induction l generalizing acc with
  | nil => rfl
  | cons p rest ih =>
    rw [List.foldl_cons, ih]
    cases hl : lookupLast rest k with
    | some v => simp [lookupLast, hl]
    | none =>
      rw [kvGet_mapInsert]
      simp only [lookupLast, hl]
      by_cases hk : p.1 = k
      · rw [if_pos hk.symm, if_pos hk]
      · rw [if_neg (fun h => hk h.symm), if_neg hk]

theorem lookupLast_eq_none_of_not_mem (m : KV) (k : String)
    (h : k ∉ m.map Prod.fst) : lookupLast m k = none := by
  induction m with
  | nil => rfl
  | cons p rest ih =>
    simp only [List.map_cons, List.mem_cons, not_or] at h
    simp only [lookupLast, ih h.2]
    rw [if_neg (fun hpk => h.1 hpk.symm)]

theorem lookupLast_eq_kvGet (m : KV) (h : KVWF m) (k : String) :
    lookupLast m k = kvGet m k := by
  induction m with
  | nil => rfl
  | cons p rest ih =>
    have hwf := h
    rw [KVWF, List.map_cons, List.nodup_cons] at hwf
    by_cases hpk : p.1 = k
    · have hnone : lookupLast rest k = none :=
        lookupLast_eq_none_of_not_mem rest k (hpk ▸ hwf.1)
      simp [lookupLast, kvGet, hnone, hpk]
    · have hrec := ih hwf.2
      simp only [lookupLast, kvGet, hrec, if_neg hpk]
      cases kvGet rest k <;> simp

theorem kvGet_Merge (kvs : List KV) (k : String) (h : ∀ m ∈ kvs, KVWF m) :
    kvGet (Merge kvs) k = rightmostLookup kvs k := by
  have gen : ∀ (l : List KV) (acc : KV), (∀ m ∈ l, KVWF m) →
      kvGet (l.foldl (fun acc m =>
          m.foldl (fun a p => mapInsert a p.1 p.2) acc) acc) k =
        match rightmostLookup l k with
        | some v => some v
        | none => kvGet acc k := by
    intro l
    induction l with
    | nil => intro acc _; rfl
    | cons m rest ih =>
      intro acc hwf
      rw [List.foldl_cons, ih _ (fun q hq => hwf q (List.mem_cons_of_mem m hq))]
      cases hr : rightmostLookup rest k with
      | some v => simp [rightmostLookup, hr]
      | none =>
        simp only [rightmostLookup, hr]
        rw [kvGet_foldl_mapInsert,
          lookupLast_eq_kvGet m (hwf m (List.mem_cons_self m rest)) k]
  rw [Merge, gen kvs [] h]
  cases hr : rightmostLookup kvs k <;> simp [kvGet]

/-! ### Sorting lemmas -/

theorem kvTo_sorted (kv : KV) : List.Sorted kvLe (kvTo kv) :=
  List.sorted_insertionSort kvLe kv

theorem kvTo_perm (kv : KV) : (kvTo kv).Perm kv :=
  List.perm_insertionSort kvLe kv

theorem sorted_kvLt_of_nodup {l : List (String × Value)}
    (hs : List.Sorted kvLe l) (hn : (l.map Prod.fst).Nodup) :
    List.Sorted kvLt l := by
  have hne : l.Pairwise (fun a b => a.1 ≠ b.1) := by
    rw [List.Nodup, List.pairwise_map] at hn
    exact hn
  exact (hs.and hne).imp (fun h => lt_of_le_of_ne h.1 h.2)

theorem kvTo_eq_of_perm {l₁ l₂ : List (String × Value)} (hp : l₁.Perm l₂)
    (hn : (l₁.map Prod.fst).Nodup) : kvTo l₁ = kvTo l₂ := by
  have hn₂ : (l₂.map Prod.fst).Nodup := (hp.map Prod.fst).nodup hn
  have hperm : (kvTo l₁).Perm (kvTo l₂) :=
    (kvTo_perm l₁).trans (hp.trans (kvTo_perm l₂).symm)
  have hc₁ : ((kvTo l₁).map Prod.fst).Nodup :=
    ((kvTo_perm l₁).map Prod.fst).symm.nodup hn
  have hc₂ : ((kvTo l₂).map Prod.fst).Nodup :=
    ((kvTo_perm l₂).map Prod.fst).symm.nodup hn₂
  exact List.eq_of_perm_of_sorted hperm
    (sorted_kvLt_of_nodup (kvTo_sorted l₁) hc₁)
    (sorted_kvLt_of_nodup (kvTo_sorted l₂) hc₂)

/-! ### State-machine invariants -/

theorem sysInv_step {msg : String} {kvs : List KV} {s s' : Sys}
    (h : Step msg kvs s s') (hinv : SysInv s) : SysInv s' := by
  cases h with
  | gatePass hc hl => exact hinv
  | gateSkip hc hl => exact hinv
  | rendezvous hc hw =>
    exact ⟨(fun h => nomatch h), (fun h => nomatch h), hinv.2.2.1, hinv.2.2.2⟩
  | doWork e hw hc =>
    exact ⟨fun _ => rfl, (fun h => nomatch h),
      fun hb => ⟨rfl, (hinv.2.2.1 hb).2⟩, hinv.2.2.2⟩
  | doFlush e hw hc =>
    exact ⟨(fun h => nomatch h), fun _ => ⟨hinv.1 hw, rfl⟩,
      fun hb => ⟨(hinv.2.2.1 hb).1, rfl⟩, hinv.2.2.2⟩
  | doSignal e hw hc =>
    refine ⟨(fun h => nomatch h), (fun h => nomatch h),
      fun _ => hinv.2.1 hw, fun h => ⟨?_, (hinv.2.2.2 h).2⟩⟩
    show (s.blockClosed || e.hasBlockCh) = true
    rw [(hinv.2.2.2 h).1, Bool.true_or]
  | exit hc hb =>
    exact ⟨hinv.1, hinv.2.1, hinv.2.2.1, fun _ => ⟨hb, rfl⟩⟩

theorem sysInv_reach {msg : String} {kvs : List KV} {t : Level}
    {cfg : RelayCfg} {io_ : RelayIO} {s : Sys}
    (h : Reach msg kvs (Sys.start t cfg io_) s) : SysInv s := by
  induction h with
  | refl =>
    exact ⟨(fun h => nomatch h), (fun h => nomatch h), (fun h => nomatch h),
      fun h => absurd rfl h⟩
  | tail _ hstep ih => exact sysInv_step hstep ih

theorem quietInv_step {msg : String} {kvs : List KV} {s s' : Sys}
    {t : Level} {io0 : RelayIO} (ht : FatalLevel < t)
    (h : Step msg kvs s s') (hq : QuietInv t io0 s) : QuietInv t io0 s' := by
  obtain ⟨h1, h2, h3, h4, h5, h6, h7, h8, h9, h10⟩ := hq
  cases h with
  | gatePass hc hl =>
    rw [h1] at hl
    exact absurd hl (not_le.2 ht)
  | gateSkip hc hl =>
    exact ⟨h1, Or.inr rfl, h3, h4, h5, h6, h7, h8, h9, h10⟩
  | rendezvous hc hw =>
    rcases h2 with h2 | h2 <;> rw [hc] at h2 <;> exact nomatch h2
  | doWork e hw hc =>
    rw [h3] at hw; exact nomatch hw
  | doFlush e hw hc =>
    rw [h3] at hw; exact nomatch hw
  | doSignal e hw hc =>
    rw [h3] at hw; exact nomatch hw
  | exit hc hb =>
    rw [h5] at hb; exact nomatch hb

theorem quietInv_reach {msg : String} {kvs : List KV} {t : Level}
    {cfg : RelayCfg} {io_ : RelayIO} {s : Sys} (ht : FatalLevel < t)
    (h : Reach msg kvs (Sys.start t cfg io_) s) : QuietInv t io_ s := by
  induction h with
  | refl =>
    exact ⟨rfl, Or.inl rfl, rfl, rfl, rfl, rfl, rfl, rfl, rfl, rfl⟩
  | tail _ hstep ih => exact quietInv_step ht hstep ih

theorem chunksChars_append (l₁ l₂ : List String) :
    chunksChars (l₁ ++ l₂) = chunksChars l₁ ++ chunksChars l₂ := by
  simp [chunksChars, List.map_append, List.flatten_append]

/-! ## Claim theorems -/

/-- C1, counterexample: the line formatted for the ERROR entry with message
"bar" and the single attribute `a = "b"` does not satisfy the claimed
grammar-and-marker property: the `" --"` marker occurs twice in
`~ ERROR -- bar -- a="b"`, not exactly once. -/
theorem C1_counterexample :
    ¬ claimC1 { level := ErrorLevel, msg := "bar",
                kv := [("a", Value.str "b")], hasBlockCh := false } false "" := by
  intro h
  exact absurd h.2 (by decide)

/-- C1, amended: every formatted line follows the grammar
`"~ " [ "[" ts "] " ] LEVEL-NAME " -- " message [ " --" { " " key "=" value } ] "\n"`:
the `" -- "` marker after the level name is always emitted (even with zero
attributes), the message follows it, and a second `" --"` marker precedes
the attribute pairs exactly when the attribute list is nonempty. -/
theorem C1_line_grammar (e : Entry) (dts : Bool) (now : String) :
    renderLine e dts now = amendedLine e dts now :=
  renderLine_eq_amendedLine e dts now

/-- C2: in every reachable state of the `Fatal` caller/relay system, the
completion signal is fired only after the entry's write (with fallback
handling) and the flush attempt have completed, and the process has exited
only if the signal was fired, with exit status 1. -/
theorem C2_fatal_blocks_until_processed (t : Level) (cfg : RelayCfg)
    (io_ : RelayIO) (msg : String) (kvs : List KV) (s : Sys)
    (h : Reach msg kvs (Sys.start t cfg io_) s) :
    (s.blockClosed = true → s.writeDone = true ∧ s.flushDone = true) ∧
    (s.exitCode.isSome = true →
      s.writeDone = true ∧ s.flushDone = true ∧ s.blockClosed = true ∧
        s.exitCode = some 1) := by
  have hinv := sysInv_reach h
  refine ⟨hinv.2.2.1, fun he => ?_⟩
  have hne : s.exitCode ≠ none := by
    intro hn
    rw [hn] at he
    exact absurd he (by decide)
  have h4 := hinv.2.2.2 hne
  rcases hinv.2.2.1 h4.1 with ⟨hw, hf⟩
  exact ⟨hw, hf, h4.1, h4.2⟩

/-- Witness for C2: a concrete complete run of `Fatal "boom"` reaches the
exited state, where all processing flags hold and the exit status is 1. -/
theorem C2_fatal_blocks_until_processed_witness :
    witFinal.writeDone = true ∧ witFinal.flushDone = true ∧
    witFinal.blockClosed = true ∧ witFinal.exitCode = some 1 := by
  have h0 : Reach "boom" [] (Sys.start 0 witCfg witIO) (Sys.start 0 witCfg witIO) :=
    Reach.refl
  have h1 := Reach.tail h0 (Step.gatePass _ rfl (by decide))
  have h2 := Reach.tail h1 (Step.rendezvous _ rfl rfl)
  have h3 := Reach.tail h2 (Step.doWork _ (fatalEntry "boom" []) rfl rfl)
  have h4 := Reach.tail h3 (Step.doFlush _ (fatalEntry "boom" []) rfl rfl)
  have h5 := Reach.tail h4 (Step.doSignal _ (fatalEntry "boom" []) rfl rfl)
  have h6 : Reach "boom" [] (Sys.start 0 witCfg witIO) witFinal :=
    Reach.tail h5 (Step.exit _ rfl rfl)
  exact (C2_fatal_blocks_until_processed 0 witCfg witIO "boom" [] witFinal h6).2 rfl

/-- C6: when the threshold is strictly above FATAL, a `Fatal` call
constructs and submits nothing — in every reachable state the worker has
received no entry, nothing was written or flushed, and the process has not
terminated (the caller never reaches `os.Exit`). -/
theorem C6_suppressed_fatal (t : Level) (cfg : RelayCfg) (io_ : RelayIO)
    (msg : String) (kvs : List KV) (s : Sys) (ht : FatalLevel < t)
    (h : Reach msg kvs (Sys.start t cfg io_) s) :
    s.cur = none ∧ s.worker = .recv ∧ s.io_ = io_ ∧ s.writeDone = false ∧
    s.flushed = [] ∧ s.blockClosed = false ∧ s.exitCode = none ∧
    s.caller ≠ .done := by
  obtain ⟨h1, h2, h3, h4, h5, h6, h7, h8, h9, h10⟩ := quietInv_reach ht h
  refine ⟨h4, h3, h6, h8, h7, h5, h10, ?_⟩
  rcases h2 with h2 | h2 <;> intro hd <;> rw [h2] at hd <;> exact nomatch hd

/-- Witness for C6: with the threshold set to 5 (strictly above FATAL), the
initial state of `Fatal "boom"` already satisfies the suppression facts. -/
theorem C6_suppressed_fatal_witness :
    (Sys.start 5 witCfg witIO).cur = none ∧
    (Sys.start 5 witCfg witIO).worker = .recv ∧
    (Sys.start 5 witCfg witIO).io_ = witIO ∧
    (Sys.start 5 witCfg witIO).writeDone = false ∧
    (Sys.start 5 witCfg witIO).flushed = [] ∧
    (Sys.start 5 witCfg witIO).blockClosed = false ∧
    (Sys.start 5 witCfg witIO).exitCode = none ∧
    (Sys.start 5 witCfg witIO).caller ≠ .done :=
  C6_suppressed_fatal 5 witCfg witIO "boom" [] _ (by decide) Reach.refl

/-- C3: when an entry's write to `Out` fails and `Out` is not the default
fallback sink, the worker writes to the fallback sink exactly the synthetic
ERROR entry describing the failure followed by the original entry
re-rendered (two newline-terminated lines — exactly two when the message
and keys are newline-free), and the entry's completion signalling is
unaffected (no error reaches the emitting caller). -/
theorem C3_fallback_two_lines (cfg : RelayCfg) (io_ : RelayIO) (e : Entry)
    (errText : String) (hnd : cfg.outIsDefault = false)
    (herr : (printOut e io_.out cfg.displayTS cfg.now).2 = some errText)
    (hok : io_.fb.allOk) :
    (processEntry cfg io_ e).fb.log =
      io_.fb.log ++ renderChunks (erreEntry errText) cfg.displayTS cfg.now
        ++ renderChunks e cfg.displayTS cfg.now ∧
    (erreEntry errText).level = ErrorLevel ∧
    (erreEntry errText).msg = "Could not write to error Out" ∧
    (erreEntry errText).kv = [("err", Value.str errText)] ∧
    (processEntry cfg io_ e).signaled = e.hasBlockCh ∧
    (cfg.displayTS = false → e.msg.data.count '\n' = 0 →
      (∀ p ∈ e.kv, p.1.data.count '\n' = 0) →
      (chunksChars (renderChunks (erreEntry errText) cfg.displayTS cfg.now
        ++ renderChunks e cfg.displayTS cfg.now)).count '\n' = 2) := by
  have hfb : (processEntry cfg io_ e).fb.log =
      io_.fb.log ++ renderChunks (erreEntry errText) cfg.displayTS cfg.now
        ++ renderChunks e cfg.displayTS cfg.now := by
    show (writeAndFallback cfg io_ e).fb.log = _
    unfold writeAndFallback
    cases hpo : printOut e io_.out cfg.displayTS cfg.now with
    | mk out1 oerr =>
      have : oerr = some errText := by rw [hpo] at herr; exact herr
      subst this
      simp only [hnd, Bool.false_eq_true, if_false]
      rw [printOut_allOk _ _ _ _ hok]
      have hokA : Sink.allOk { io_.fb with
          count := io_.fb.count + (renderChunks (erreEntry errText) cfg.displayTS cfg.now).length,
          log := io_.fb.log ++ renderChunks (erreEntry errText) cfg.displayTS cfg.now } :=
        fun n => hok n
      rw [printOut_allOk _ _ _ _ hokA]
  refine ⟨hfb, rfl, rfl, rfl, rfl, fun hts hm hk => ?_⟩
  rw [chunksChars_append, List.count_append]
  have h1 : (chunksChars (renderChunks (erreEntry errText) cfg.displayTS cfg.now)).count '\n' = 1 := by
    rw [hts]
    have hm1 : (erreEntry errText).msg.data.count '\n' = 0 := by
      show ("Could not write to error Out").data.count '\n' = 0
      decide
    apply count_nl_line (erreEntry errText) cfg.now hm1
    intro p hp
    have hpe : p = ("err", Value.str errText) := by
      have hkv : (erreEntry errText).kv = [("err", Value.str errText)] := rfl
      rw [hkv] at hp
      simpa using hp
    rw [hpe]
    show ("err").data.count '\n' = 0
    decide
  have h2 : (chunksChars (renderChunks e cfg.displayTS cfg.now)).count '\n' = 1 := by
    rw [hts]
    exact count_nl_line e cfg.now hm hk
  rw [show chunksChars (renderChunks (erreEntry errText) cfg.displayTS cfg.now) =
        lineChars (erreEntry errText) cfg.displayTS cfg.now from rfl] at h1
  rw [show chunksChars (renderChunks e cfg.displayTS cfg.now) =
        lineChars e cfg.displayTS cfg.now from rfl] at h2
  rw [show (chunksChars (renderChunks (erreEntry errText) cfg.displayTS cfg.now)).count '\n' =
        (lineChars (erreEntry errText) cfg.displayTS cfg.now).count '\n' from rfl]
  rw [show (chunksChars (renderChunks e cfg.displayTS cfg.now)).count '\n' =
        (lineChars e cfg.displayTS cfg.now).count '\n' from rfl]
  rw [h1, h2]

/-- Witness for C3: a failing `Out` sink and a working fallback, with the
INFO entry "m": the fallback receives the synthetic ERROR entry's chunks,
then the original entry's chunks, and the newline count is 2. -/
theorem C3_fallback_two_lines_witness :
    (processEntry sepCfg failIO
      { level := InfoLevel, msg := "m", kv := [], hasBlockCh := false }).fb.log =
      okSink.log ++ renderChunks (erreEntry "boom") false ""
        ++ renderChunks { level := InfoLevel, msg := "m", kv := [],
                          hasBlockCh := false } false "" ∧
    (chunksChars (renderChunks (erreEntry "boom") false ""
      ++ renderChunks { level := InfoLevel, msg := "m", kv := [],
                        hasBlockCh := false } false "")).count '\n' = 2 := by
  have h := C3_fallback_two_lines sepCfg failIO
    { level := InfoLevel, msg := "m", kv := [], hasBlockCh := false } "boom"
    rfl (by decide) (fun n => rfl)
  exact ⟨h.1, h.2.2.2.2.2 rfl (by decide) (fun p hp => nomatch hp)⟩

/-- C4, counterexample: for a FATAL entry on a sink implementing both
`syncer` and `flusher`, the worker invokes `Sync`, not `Flush` — so the
claimed flush-first preference order is wrong. -/
theorem C4_counterexample :
    ¬ ((processEntry bothCfg witIO
        { level := FatalLevel, msg := "m", kv := [], hasBlockCh := true }).flushed =
      claimedFlushOrder bothCfg) := by
  decide

/-- C4, amended: for a FATAL entry the worker probes `Sync` first, then
`Flush` (in that preference order), invokes at most one of them, invokes
nothing when neither capability is present (which is not an error), and
invokes nothing for non-FATAL entries. -/
theorem C4_flush_order (cfg : RelayCfg) (io_ : RelayIO) (e : Entry) :
    (e.level = FatalLevel →
      (processEntry cfg io_ e).flushed =
        (if cfg.outHasSync then [FlushAction.sync]
         else if cfg.outHasFlush then [FlushAction.flush] else [])) ∧
    (processEntry cfg io_ e).flushed.length ≤ 1 ∧
    (cfg.outHasSync = false → cfg.outHasFlush = false →
      (processEntry cfg io_ e).flushed = []) ∧
    (e.level ≠ FatalLevel → (processEntry cfg io_ e).flushed = []) := by
  refine ⟨fun hf => ?_, ?_, fun hs hf2 => ?_, fun hnf => ?_⟩
  · show fatalFlush cfg e = _
    rw [fatalFlush, if_pos hf]
  · show (fatalFlush cfg e).length ≤ 1
    unfold fatalFlush
    split_ifs <;> simp
  · show fatalFlush cfg e = []
    unfold fatalFlush
    rw [hs, hf2]
    simp
  · show fatalFlush cfg e = []
    rw [fatalFlush, if_neg hnf]

/-- Witness for C4 (amended): with both capabilities present, the FATAL
entry leads to exactly one invocation, of `Sync`. -/
theorem C4_flush_order_witness :
    (processEntry bothCfg witIO
      { level := FatalLevel, msg := "m", kv := [], hasBlockCh := true }).flushed =
      [FlushAction.sync] := by
  have h := (C4_flush_order bothCfg witIO
    { level := FatalLevel, msg := "m", kv := [], hasBlockCh := true }).1 rfl
  simpa using h

/-- C5: an entry is constructed and submitted iff the requested severity
meets or exceeds the threshold; with the threshold at WARN, Debug and Info
calls leave the sink untouched while Warn and Error calls each append
exactly the entry's chunk sequence — one newline-terminated line. -/
theorem C5_level_gate (curr l : Level) (msg : String) (kvs : List KV) (b : Bool)
    (cfg : RelayCfg) (io_ : RelayIO) (hok : io_.out.allOk)
    (_hts : cfg.displayTS = false)
    (hm : msg.data.count '\n' = 0)
    (hk : ∀ p ∈ kvNormalize kvs, p.1.data.count '\n' = 0) :
    ((logEntry curr l msg kvs b).isSome ↔ curr ≤ l) ∧
    logEntry WarnLevel DebugLevel msg kvs false = none ∧
    logEntry WarnLevel InfoLevel msg kvs false = none ∧
    (emitted WarnLevel DebugLevel msg kvs cfg io_).out.log = io_.out.log ∧
    (emitted WarnLevel InfoLevel msg kvs cfg io_).out.log = io_.out.log ∧
    (emitted WarnLevel WarnLevel msg kvs cfg io_).out.log =
      io_.out.log ++ renderChunks
        { level := WarnLevel, msg := msg, kv := kvNormalize kvs,
          hasBlockCh := false } cfg.displayTS cfg.now ∧
    (emitted WarnLevel ErrorLevel msg kvs cfg io_).out.log =
      io_.out.log ++ renderChunks
        { level := ErrorLevel, msg := msg, kv := kvNormalize kvs,
          hasBlockCh := false } cfg.displayTS cfg.now ∧
    (lineChars { level := WarnLevel, msg := msg, kv := kvNormalize kvs,
                 hasBlockCh := false } false cfg.now).count '\n' = 1 ∧
    (lineChars { level := ErrorLevel, msg := msg, kv := kvNormalize kvs,
                 hasBlockCh := false } false cfg.now).count '\n' = 1 := by
  have hgD : logEntry WarnLevel DebugLevel msg kvs false = none := by
    rw [logEntry, if_neg (by decide)]
  have hgI : logEntry WarnLevel InfoLevel msg kvs false = none := by
    rw [logEntry, if_neg (by decide)]
  have hgW : logEntry WarnLevel WarnLevel msg kvs false =
      some { level := WarnLevel, msg := msg, kv := kvNormalize kvs,
             hasBlockCh := false } := by
    rw [logEntry, if_pos (by decide)]
  have hgE : logEntry WarnLevel ErrorLevel msg kvs false =
      some { level := ErrorLevel, msg := msg, kv := kvNormalize kvs,
             hasBlockCh := false } := by
    rw [logEntry, if_pos (by decide)]
  have hproc : ∀ e : Entry, (processEntry cfg io_ e).out.log =
      io_.out.log ++ renderChunks e cfg.displayTS cfg.now := by
    intro e
    show (writeAndFallback cfg io_ e).out.log = _
    unfold writeAndFallback
    rw [printOut_allOk _ _ _ _ hok]
  refine ⟨?_, hgD, hgI, ?_, ?_, ?_, ?_,
    count_nl_line _ cfg.now hm hk, count_nl_line _ cfg.now hm hk⟩
  · by_cases hge : curr ≤ l <;> simp [logEntry, hge]
  · unfold emitted
    rw [hgD]
  · unfold emitted
    rw [hgI]
  · unfold emitted
    rw [hgW]
    exact hproc _
  · unfold emitted
    rw [hgE]
    exact hproc _

/-- Witness for C5: threshold WARN, message "baz", no attributes — Info
appends nothing, Warn appends its single line, whose newline count is 1. -/
theorem C5_level_gate_witness :
    (emitted WarnLevel InfoLevel "baz" [] sepCfg witIO).out.log =
      witIO.out.log ∧
    (emitted WarnLevel WarnLevel "baz" [] sepCfg witIO).out.log =
      witIO.out.log ++ renderChunks
        { level := WarnLevel, msg := "baz", kv := kvNormalize [],
          hasBlockCh := false } sepCfg.displayTS sepCfg.now ∧
    (lineChars { level := WarnLevel, msg := "baz", kv := kvNormalize [],
                 hasBlockCh := false } false sepCfg.now).count '\n' = 1 := by
  have h := C5_level_gate WarnLevel WarnLevel "baz" [] false sepCfg witIO
    (fun n => rfl) rfl (by decide) (fun p hp => nomatch hp)
  exact ⟨h.2.2.2.2.1, h.2.2.2.2.2.1, h.2.2.2.2.2.2.2.1⟩

/-- C7: building the attribute map from the same key/value pairs in any two
insertion orders yields the same sorted pair list (lexicographic by key),
and therefore the same formatted line. -/
theorem C7_insertion_order_irrelevant (l₁ l₂ : List (String × Value))
    (hp : l₁.Perm l₂) (hn : (l₁.map Prod.fst).Nodup) :
    kvTo (kvOfList l₁) = kvTo (kvOfList l₂) ∧
    List.Sorted kvLe (kvTo (kvOfList l₁)) ∧
    (∀ (lv : Level) (m : String) (b : Bool) (dts : Bool) (now : String),
      renderLine { level := lv, msg := m, kv := kvTo (kvOfList l₁),
                   hasBlockCh := b } dts now =
      renderLine { level := lv, msg := m, kv := kvTo (kvOfList l₂),
                   hasBlockCh := b } dts now) := by
  have h1 : kvOfList l₁ = l₁ := kvOfList_eq_self l₁ hn
  have hn₂ : (l₂.map Prod.fst).Nodup := (hp.map Prod.fst).nodup hn
  have h2 : kvOfList l₂ = l₂ := kvOfList_eq_self l₂ hn₂
  have heq : kvTo (kvOfList l₁) = kvTo (kvOfList l₂) := by
    rw [h1, h2]
    exact kvTo_eq_of_perm hp hn
  exact ⟨heq, kvTo_sorted _, fun lv m b dts now => by rw [heq]⟩

/-- Witness for C7: the pairs foo/bar inserted in the two opposite orders
produce the same sorted pair list. -/
theorem C7_insertion_order_irrelevant_witness :
    kvTo (kvOfList [("foo", Value.str "a"), ("bar", Value.str "a")]) =
      kvTo (kvOfList [("bar", Value.str "a"), ("foo", Value.str "a")]) ∧
    List.Sorted kvLe
      (kvTo (kvOfList [("foo", Value.str "a"), ("bar", Value.str "a")])) := by
  have h := C7_insertion_order_irrelevant
    [("foo", Value.str "a"), ("bar", Value.str "a")]
    [("bar", Value.str "a"), ("foo", Value.str "a")]
    (by decide) (by decide)
  exact ⟨h.1, h.2.1⟩

/-- C8: each attribute value is rendered as
`QuoteToASCII(replace(Sprint v, quote, apostrophe))`: the pre-quoting
replacement leaves no double-quote character, and the quoted result is
wrapped in double quotes and consists solely of printable ASCII characters
(everything non-printable or non-ASCII is escaped). -/
theorem C8_value_rendering (p : String × Value) :
    pairChunks p = [" ", p.1, "=", quoteToASCII (replaceQuotes (sprint p.2))] ∧
    (∀ c ∈ (replaceQuotes (sprint p.2)).data, c ≠ '"') ∧
    (renderValue p.2).data.head? = some '"' ∧
    (renderValue p.2).data.getLast? = some '"' ∧
    (∀ c ∈ (renderValue p.2).data, printableASCII c) := by
  refine ⟨rfl, ?_, rfl, ?_, fun c hc => renderValue_printable p.2 hc⟩
  · intro c hc
    simp only [replaceQuotes, List.mem_map] at hc
    rcases hc with ⟨d, _, rfl⟩
    by_cases hd : d = '"' <;> simp [hd]
  · show ('"' :: ((replaceQuotes (sprint p.2)).data.flatMap quoteRuneToASCII
        ++ ['"'])).getLast? = some '"'
    rw [← List.cons_append]
    exact List.getLast?_concat _

/-- Witness for C8: the value `a"b` renders with its quote replaced by an
apostrophe and wrapped in quotes. -/
theorem C8_value_rendering_witness :
    pairChunks ("k", Value.str "a\"b") =
      [" ", "k", "=", quoteToASCII (replaceQuotes (sprint (Value.str "a\"b")))] ∧
    (renderValue (Value.str "a\"b")).data.head? = some '"' ∧
    renderValue (Value.str "a\"b") = "\"a'b\"" :=
  ⟨(C8_value_rendering ("k", Value.str "a\"b")).1,
   (C8_value_rendering ("k", Value.str "a\"b")).2.2.1,
   by decide⟩

/-- C9: merging any list of well-formed attribute sets gives, for every
key, the value from the rightmost set containing that key, and merging
zero sets gives the empty (valid, non-nil) set. -/
theorem C9_merge_right_bias (kvs : List KV) (k : String)
    (h : ∀ m ∈ kvs, KVWF m) :
    kvGet (Merge kvs) k = rightmostLookup kvs k ∧ Merge [] = [] :=
  ⟨kvGet_Merge kvs k h, rfl⟩

/-- Witness for C9: two sets sharing key "a" — the merged value for "a" is
the rightmost one. -/
theorem C9_merge_right_bias_witness :
    kvGet (Merge [[("a", Value.int 1)], [("a", Value.int 2), ("b", Value.int 3)]]) "a" =
      rightmostLookup [[("a", Value.int 1)], [("a", Value.int 2), ("b", Value.int 3)]] "a" ∧
    kvGet (Merge [[("a", Value.int 1)], [("a", Value.int 2), ("b", Value.int 3)]]) "a" =
      some (Value.int 2) := by
  have h := C9_merge_right_bias
    [[("a", Value.int 1)], [("a", Value.int 2), ("b", Value.int 3)]] "a"
    (by decide)
  exact ⟨h.1, h.1.trans (by decide)⟩

/-- C10: `SetLevelFromString` parses its input case-insensitively against
the five level names; on a recognized name the threshold becomes the
corresponding level with no error, and otherwise an "unknown log level"
error carrying the offending input is returned and the threshold is
unchanged. -/
theorem C10_set_level_from_string (ls : String) (curr : Level) :
    ((runSetLevelFromString ls curr).1 = none ↔ goToUpper ls ∈ levelNames) ∧
    (goToUpper ls = "DEBUG" → runSetLevelFromString ls curr = (none, DebugLevel)) ∧
    (goToUpper ls = "INFO" → runSetLevelFromString ls curr = (none, InfoLevel)) ∧
    (goToUpper ls = "WARN" → runSetLevelFromString ls curr = (none, WarnLevel)) ∧
    (goToUpper ls = "ERROR" → runSetLevelFromString ls curr = (none, ErrorLevel)) ∧
    (goToUpper ls = "FATAL" → runSetLevelFromString ls curr = (none, FatalLevel)) ∧
    (goToUpper ls ∉ levelNames →
      runSetLevelFromString ls curr =
        (some { format := "unknown log level %q", arg := ls }, curr)) := by
  unfold runSetLevelFromString SetLevelFromString levelNames
  by_cases h1 : goToUpper ls = "DEBUG" <;>
    by_cases h2 : goToUpper ls = "INFO" <;>
      by_cases h3 : goToUpper ls = "WARN" <;>
        by_cases h4 : goToUpper ls = "ERROR" <;>
          by_cases h5 : goToUpper ls = "FATAL" <;>
            simp [h1, h2, h3, h4, h5]

/-- Witness for C10: "warn" parses case-insensitively to WARN; "BOGUS"
returns the error naming it and leaves the threshold (here 2) unchanged. -/
theorem C10_set_level_from_string_witness :
    runSetLevelFromString "warn" 1 = (none, WarnLevel) ∧
    runSetLevelFromString "BOGUS" 2 =
      (some { format := "unknown log level %q", arg := "BOGUS" }, 2) :=
  ⟨(C10_set_level_from_string "warn" 1).2.2.2.1 (by decide),
   (C10_set_level_from_string "BOGUS" 2).2.2.2.2.2.2 (by decide)⟩

end LLog
